import Mathlib

/-!
Verification of the Quart-Admin administrative CRUD interface.

This file gives a shallow embedding of the parts of the repository that the
frozen claims talk about:

* `quart_admin/forms/wtforms.py` (src layout): field-type inference
  (`WTFormsGenerator.get_field_for_column`) and the JSON conversion performed
  when a stored record is bound into a form (`WTFormsGenerator.create_form`).
* `quart_admin/views/model.py` (src layout): the form-data extraction of
  `ModelView.create_view` / `ModelView.edit_view`, the primary-key resolution
  of the edit/details/delete handlers, and `ModelView.format_column_value`.
* `quart_admin/views/base.py`: the authentication wrapper
  `AdminView._wrap_with_auth` and endpoint derivation in `AdminView.__init__`.
* `quart_admin/admin.py`: the view registry of `QuartAdmin.add_view`.
* `quart_admin/database/sqlalchemy.py`: the attribute-assignment loop of
  `SQLAlchemyProvider.update` and record deletion of
  `SQLAlchemyProvider.delete`.

Python values that can appear in records and forms are modelled by the mutual
inductive family `PyVal` / `PyList` / `PyFields`.  Numeric JSON leaves are
modelled as arbitrary-precision integers (Python `int`); floating point values
are outside the embedding.  `json.dumps(v, indent=2, default=str)` and
`json.loads` are embedded as executable functions `pyJsonDumps` and
`pyJsonLoads`, including the `ensure_ascii` escaping of strings (with
surrogate-pair encoding of astral characters) that CPython's `json` module
performs by default.
-/

set_option autoImplicit false

mutual

/-- Python values as they occur in records, forms and JSON documents.
`datetime` models `datetime.datetime` values (year, month, day, hour, minute,
second); `obj` models an otherwise-opaque Python object whose `str()`
representation is the stored string. -/
inductive PyVal where
  | none : PyVal
  | bool (b : Bool) : PyVal
  | int (n : Int) : PyVal
  | str (s : String) : PyVal
  | list (xs : PyList) : PyVal
  | dict (fs : PyFields) : PyVal
  | datetime (year month day hour minute second : Nat) : PyVal
  | obj (srepr : String) : PyVal

/-- A Python list of `PyVal`s (spelled out to keep recursion structural). -/
inductive PyList where
  | nil : PyList
  | cons (head : PyVal) (tail : PyList) : PyList

/-- The entries of a Python dict with string keys, in insertion order. -/
inductive PyFields where
  | nil : PyFields
  | cons (key : String) (val : PyVal) (tail : PyFields) : PyFields

end

/-- Tests whether a value is Python `None`. -/
def PyVal.isNone : PyVal → Bool
  | .none => true
  | _ => false

/-- Tests whether a value is a Python `str` (models `isinstance(value, str)`). -/
def PyVal.isStr : PyVal → Bool
  | .str _ => true
  | _ => false

/-- Python's substring containment `sub in s` on lists of characters. -/
def listContainsSub (sub : List Char) : List Char → Bool
  | [] => sub.isEmpty
  | c :: t => sub.isPrefixOf (c :: t) || listContainsSub sub t

/-- Python's substring containment `sub in s` for strings. -/
def pyIn (sub s : String) : Bool :=
  listContainsSub sub.data s.data

/-- Python's `str.lower()` on one character (the column type strings and view
names involved are ASCII, where Python and ASCII lowering agree). -/
def pyCharLower (c : Char) : Char :=
  if 65 ≤ c.toNat ∧ c.toNat ≤ 90 then Char.ofNat (c.toNat + 32) else c

/-- Python's `str.lower()`. -/
def pyLower (s : String) : String :=
  ⟨s.data.map pyCharLower⟩

/-- Column metadata as produced by `SQLAlchemyProvider.get_model_fields`:
name, declared type string, nullability, primary-key flag and declared
default value (`none` when the column declares no default). -/
structure ColumnInfo where
  name : String
  type : String
  nullable : Bool
  primary_key : Bool
  default : Option PyVal := Option.none

/-- The kind of WTForms field chosen by `get_field_for_column`. -/
inductive FieldKind where
  | integerField
  | booleanField
  | textAreaField
  | dateTimeField
  | stringField
  deriving DecidableEq, Repr

/-- The WTForms validators attached to a generated field. -/
inductive Validator where
  | dataRequired
  | optionalValidator
  | lengthMax (n : Nat)
  deriving DecidableEq, Repr

/-- A generated form field: its kind and its validator list. -/
structure FieldSpec where
  kind : FieldKind
  validators : List Validator
  deriving DecidableEq, Repr

/-- Greedily takes the leading decimal digits of a character list, returning
them together with the remainder. -/
def takeDigits : List Char → List Char × List Char
  | [] => ([], [])
  | c :: t =>
    if c.isDigit then
      let p := takeDigits t
      (c :: p.1, p.2)
    else ([], c :: t)

/-- Numeric value of a list of decimal digit characters. -/
def digitsToNat (ds : List Char) : Nat :=
  ds.foldl (fun a c => a * 10 + (c.toNat - 48)) 0

/-- Leftmost match of the pattern an opening parenthesis, one or more digits,
a closing parenthesis (Python `re.search` with that pattern), returning the
digits' numeric value.  Greedy digit matching is exact here because after the
digit run only a closing parenthesis can complete the match. -/
def findParenLen : List Char → Option Nat
  | [] => Option.none
  | c :: t =>
    if c = '(' then
      let p := takeDigits t
      match p.1, p.2 with
      | _ :: _, ')' :: _ => Option.some (digitsToNat p.1)
      | _, _ => findParenLen t
    else findParenLen t

/-- Embedding of `WTFormsGenerator.get_field_for_column`
(src-layout `quart_admin/forms/wtforms.py`): the validator list carries
`DataRequired` when the column is not nullable, not a primary key and has no
declared default, otherwise `Optional`; the field kind is chosen from the
lower-cased type string, and string fields whose type mentions char/varchar
gain a `Length` validator from a parenthesised length. -/
def get_field_for_column (c : ColumnInfo) : FieldSpec :=
  let column_type := pyLower c.type
  let validators : List Validator :=
    if !c.nullable && !c.primary_key && !c.default.isSome then
      [Validator.dataRequired]
    else
      [Validator.optionalValidator]
  if pyIn "int" column_type then
    ⟨FieldKind.integerField, validators⟩
  else if pyIn "bool" column_type then
    ⟨FieldKind.booleanField, []⟩
  else if pyIn "text" column_type || pyIn "clob" column_type then
    ⟨FieldKind.textAreaField, validators⟩
  else if pyIn "json" column_type then
    ⟨FieldKind.textAreaField, validators⟩
  else if pyIn "datetime" column_type || pyIn "timestamp" column_type then
    ⟨FieldKind.dateTimeField, validators⟩
  else
    let field_validators :=
      if pyIn "varchar" column_type || pyIn "char" column_type then
        match findParenLen column_type.data with
        | Option.some n => validators ++ [Validator.lengthMax n]
        | Option.none => validators
      else validators
    ⟨FieldKind.stringField, field_validators⟩

/-- Lowercase hexadecimal digit character for a value below 16. -/
def hexDigitChar (n : Nat) : Char :=
  if n < 10 then Char.ofNat (48 + n) else Char.ofNat (87 + n)

/-- Four lowercase hex digits of a code point below 0x10000, as used by the
\uXXXX escapes of CPython's `json.dumps` with `ensure_ascii` (the default). -/
def hex4Chars (n : Nat) : List Char :=
  [hexDigitChar (n / 4096 % 16), hexDigitChar (n / 256 % 16),
   hexDigitChar (n / 16 % 16), hexDigitChar (n % 16)]

/-- Encoding of one character by CPython's `py_encode_basestring_ascii`:
printable ASCII passes through, the short escapes cover backslash, quote and
the usual control characters, every other character below 0x20 or above 0x7e
becomes a \uXXXX escape, with a surrogate pair for astral code points. -/
def encChar (c : Char) : List Char :=
  if c = '"' then ['\\', '"']
  else if c = '\\' then ['\\', '\\']
  else if c = Char.ofNat 8 then ['\\', 'b']
  else if c = Char.ofNat 9 then ['\\', 't']
  else if c = Char.ofNat 10 then ['\\', 'n']
  else if c = Char.ofNat 12 then ['\\', 'f']
  else if c = Char.ofNat 13 then ['\\', 'r']
  else if c.toNat < 32 then '\\' :: 'u' :: hex4Chars c.toNat
  else if c.toNat < 127 then [c]
  else if c.toNat < 65536 then '\\' :: 'u' :: hex4Chars c.toNat
  else
    '\\' :: 'u' :: hex4Chars (55296 + (c.toNat - 65536) / 1024) ++
      '\\' :: 'u' :: hex4Chars (56320 + (c.toNat - 65536) % 1024)

/-- `ensure_ascii` encoding of a whole character sequence. -/
def encodeChars : List Char → List Char
  | [] => []
  | c :: t => encChar c ++ encodeChars t

/-- A JSON string literal: quote, escaped body, quote. -/
def encodeStringLit (s : String) : List Char :=
  '"' :: encodeChars s.data ++ ['"']

/-- Decimal digit characters of a natural number, with structural fuel so
that concrete values reduce definitionally; `natDigits` supplies enough. -/
def natDigitsF : Nat → Nat → List Char
  | 0, _ => []
  | f + 1, n =>
    if n < 10 then [Char.ofNat (48 + n)]
    else natDigitsF f (n / 10) ++ [Char.ofNat (48 + n % 10)]

/-- Decimal digit characters of a natural number (most significant first). -/
def natDigits (n : Nat) : List Char :=
  natDigitsF (n + 1) n

/-- Decimal representation of a Python integer (`repr(n)`). -/
def intChars (n : Int) : List Char :=
  if n < 0 then '-' :: natDigits n.natAbs else natDigits n.natAbs

/-- A run of `n` spaces. -/
def spacesList (n : Nat) : List Char :=
  List.replicate n ' '

/-- Zero-padded decimal rendering with at least `w` digits. -/
def padNat (w n : Nat) : List Char :=
  spacesList 0 ++ (List.replicate (w - (natDigits n).length) '0') ++ natDigits n

/-- Python `str()` of a `datetime.datetime` with zero microseconds:
"YYYY-MM-DD HH:MM:SS". -/
def pyStrDatetime (year month day hour minute second : Nat) : String :=
  ⟨padNat 4 year ++ '-' :: padNat 2 month ++ '-' :: padNat 2 day ++
    ' ' :: padNat 2 hour ++ ':' :: padNat 2 minute ++ ':' :: padNat 2 second⟩

mutual

/-- Embedding of `json.dumps(v, indent=2, default=str)` at indentation level
`ind` (the indentation of the value's surrounding container).  Non-JSON
leaves (`datetime`, opaque objects) are serialized through `default=str` as
JSON strings, so serialization is total: the `except` fallback of
`create_form` is unreachable for representable values. -/
def dumpVal (ind : Nat) : PyVal → List Char
  | PyVal.none => ['n', 'u', 'l', 'l']
  | PyVal.bool true => ['t', 'r', 'u', 'e']
  | PyVal.bool false => ['f', 'a', 'l', 's', 'e']
  | PyVal.int n => intChars n
  | PyVal.str s => encodeStringLit s
  | PyVal.datetime y mo d h mi s => encodeStringLit (pyStrDatetime y mo d h mi s)
  | PyVal.obj s => encodeStringLit s
  | PyVal.list PyList.nil => ['[', ']']
  | PyVal.list (PyList.cons h t) =>
    '[' :: '\n' :: dumpItems (ind + 2) (PyList.cons h t) ++
      '\n' :: spacesList ind ++ [']']
  | PyVal.dict PyFields.nil => ['{', '}']
  | PyVal.dict (PyFields.cons k v t) =>
    '{' :: '\n' :: dumpFields (ind + 2) (PyFields.cons k v t) ++
      '\n' :: spacesList ind ++ ['}']

/-- Serialization of the items of a nonempty JSON array, one per line at
indentation `ind`, separated by commas. -/
def dumpItems (ind : Nat) : PyList → List Char
  | PyList.nil => []
  | PyList.cons h PyList.nil => spacesList ind ++ dumpVal ind h
  | PyList.cons h (PyList.cons h2 t) =>
    spacesList ind ++ dumpVal ind h ++
      ',' :: '\n' :: dumpItems ind (PyList.cons h2 t)

/-- Serialization of the members of a nonempty JSON object, one per line at
indentation `ind`, keys separated from values by ": ". -/
def dumpFields (ind : Nat) : PyFields → List Char
  | PyFields.nil => []
  | PyFields.cons k v PyFields.nil =>
    spacesList ind ++ encodeStringLit k ++ ':' :: ' ' :: dumpVal ind v
  | PyFields.cons k v (PyFields.cons k2 v2 t) =>
    spacesList ind ++ encodeStringLit k ++ ':' :: ' ' :: dumpVal ind v ++
      ',' :: '\n' :: dumpFields ind (PyFields.cons k2 v2 t)

end

/-- The indented JSON text used when a stored JSON column value is bound into
a form: `json.dumps(value, indent=2, default=str)`. -/
def pyJsonDumps (v : PyVal) : String :=
  ⟨dumpVal 0 v⟩

/-- Join with a separator, used by Python container `repr`. -/
def joinSep (sep : List Char) : List (List Char) → List Char
  | [] => []
  | [x] => x
  | x :: y :: t => x ++ sep ++ joinSep sep (y :: t)

mutual

/-- Python `repr()` of a value, as used by `str()` on containers.  String
leaves are rendered with single quotes, which is exact for strings without
quotes, backslashes or unprintable characters; opaque objects are modelled as
printing their stored representation. -/
def pyRepr : PyVal → List Char
  | PyVal.none => ['N', 'o', 'n', 'e']
  | PyVal.bool true => ['T', 'r', 'u', 'e']
  | PyVal.bool false => ['F', 'a', 'l', 's', 'e']
  | PyVal.int n => intChars n
  | PyVal.str s => '\'' :: s.data ++ ['\'']
  | PyVal.datetime y mo d h mi s =>
    "datetime.datetime(".data ++
      joinSep [',', ' ']
        [natDigits y, natDigits mo, natDigits d,
         natDigits h, natDigits mi, natDigits s] ++ [')']
  | PyVal.obj s => s.data
  | PyVal.list xs => '[' :: pyReprItems xs ++ [']']
  | PyVal.dict fs => '{' :: pyReprFields fs ++ ['}']

/-- Python `repr()` of list items, comma-and-space separated. -/
def pyReprItems : PyList → List Char
  | PyList.nil => []
  | PyList.cons h PyList.nil => pyRepr h
  | PyList.cons h (PyList.cons h2 t) =>
    pyRepr h ++ ',' :: ' ' :: pyReprItems (PyList.cons h2 t)

/-- Python `repr()` of dict entries, "key: value" comma-and-space separated. -/
def pyReprFields : PyFields → List Char
  | PyFields.nil => []
  | PyFields.cons k v PyFields.nil =>
    '\'' :: k.data ++ '\'' :: ':' :: ' ' :: pyRepr v
  | PyFields.cons k v (PyFields.cons k2 v2 t) =>
    '\'' :: k.data ++ '\'' :: ':' :: ' ' :: pyRepr v ++
      ',' :: ' ' :: pyReprFields (PyFields.cons k2 v2 t)

end

/-- Python `str()` of a value: strings print verbatim, everything else prints
its `repr`. -/
def pyStr : PyVal → String
  | PyVal.str s => s
  | PyVal.datetime y mo d h mi s => pyStrDatetime y mo d h mi s
  | v => ⟨pyRepr v⟩

/-- A database record as materialized by `SQLAlchemyProvider._model_to_dict`:
an association list from column name to value, in column order. -/
def Record := List (String × PyVal)

/-- Python `item.get(column)`: the first binding of the key, if any. -/
def recordGet (item : Record) (column : String) : Option PyVal :=
  match item with
  | [] => Option.none
  | (k, v) :: t => if k = column then Option.some v else recordGet t column

/-- Python `datetime.strftime("%Y-%m-%d %H:%M")` used by the display
formatter. -/
def strftimeListFormat (year month day hour minute : Nat) : String :=
  ⟨padNat 4 year ++ '-' :: padNat 2 month ++ '-' :: padNat 2 day ++
    ' ' :: padNat 2 hour ++ ':' :: padNat 2 minute⟩

/-- Embedding of `ModelView.format_column_value`
(src-layout `quart_admin/views/model.py`): a registered per-column formatter
wins; otherwise `None` (or a missing column) renders as the empty string,
booleans as the check/cross glyphs, datetimes through
`strftime("%Y-%m-%d %H:%M")`, and every other value as `str(value)`. -/
def format_column_value (formatters : List (String × (Record → String → String)))
    (item : Record) (column : String) : String :=
  match formatters.lookup column with
  | Option.some f => f item column
  | Option.none =>
    match recordGet item column with
    | Option.none => ""
    | Option.some PyVal.none => ""
    | Option.some (PyVal.bool b) => if b then "✓" else "✗"
    | Option.some (PyVal.datetime y mo d h mi _) => strftimeListFormat y mo d h mi
    | Option.some v => pyStr v

/-- A submitted form, as iterated by the view handlers: each field's name and
its submitted data (`PyVal.none` models a field whose `data` is Python
`None`). -/
def SubmittedForm := List (String × PyVal)

/-- Embedding of the form-data extraction of `ModelView.create_view`: every
field except the CSRF token whose data is not `None` is passed, as-is, to
`database_provider.create`.  No JSON decoding happens on this path. -/
def create_form_data (form : SubmittedForm) : List (String × PyVal) :=
  form.filter (fun f => !(f.1 = "csrf_token" : Bool) && !f.2.isNone)

/-- Embedding of the form-data extraction of `ModelView.edit_view`: every
field whose name is neither the CSRF token nor one of the primary-key fields
is passed, as-is, to `database_provider.update`. -/
def edit_form_data (pk_fields : List String) (form : SubmittedForm) :
    List (String × PyVal) :=
  form.filter (fun f => !("csrf_token" :: pk_fields).contains f.1)

/-- The names of the JSON-typed columns of a model, as computed inside
`WTFormsGenerator.create_form`: those whose declared type contains "json"
case-insensitively. -/
def jsonFieldNames (model_fields : List ColumnInfo) : List String :=
  (model_fields.filter (fun f => pyIn "json" (pyLower f.type))).map (·.name)

/-- Embedding of the record-to-form conversion loop of
`WTFormsGenerator.create_form` (src-layout `quart_admin/forms/wtforms.py`):
for each stored column value, if the column is JSON-typed and the value is
neither `None` nor already a string, it is replaced by
`json.dumps(value, indent=2, default=str)`; every other value passes through
unchanged. -/
def convert_obj (model_fields : List ColumnInfo) (obj : Record) : Record :=
  let json_fields := jsonFieldNames model_fields
  obj.map (fun p =>
    if json_fields.contains p.1 && !p.2.isNone && !p.2.isStr then
      (p.1, PyVal.str (pyJsonDumps p.2))
    else p)

/-- The outcome of the two checks an authentication provider performs for a
request: `is_authenticated()` and `has_admin_access()`. -/
structure AuthState where
  authenticated : Bool
  admin : Bool

/-- The observable outcome of a wrapped route handler: either an abort with an
HTTP status and message, or the handler's own result. -/
inductive RouteResponse (α : Type) where
  | aborted (status : Nat) (msg : String)
  | ok (result : α)
  deriving DecidableEq, Repr

/-- Embedding of `AdminView._wrap_with_auth` (`quart_admin/views/base.py`) for
async handlers: with no provider configured the handler runs untouched; with a
provider, an unauthenticated request aborts with 401, an authenticated request
without admin access aborts with 403, and otherwise the handler runs. -/
def wrap_with_auth {α : Type} (provider : Option AuthState) (handler : α) :
    RouteResponse α :=
  match provider with
  | Option.none => RouteResponse.ok handler
  | Option.some p =>
    if !p.authenticated then RouteResponse.aborted 401 "Authentication required"
    else if !p.admin then RouteResponse.aborted 403 "Admin access required"
    else RouteResponse.ok handler

/-- Embedding of the endpoint derivation in `AdminView.__init__`
(`quart_admin/views/base.py`): `endpoint or name.lower().replace(" ", "_")`;
with a one-character pattern, Python's `str.replace` is exactly a
character-wise substitution. -/
def derive_endpoint (name : String) : String :=
  ⟨(pyLower name).data.map (fun c => if c = ' ' then '_' else c)⟩

/-- The registry-relevant state of a constructed `AdminView`: its
human-readable name and its endpoint. -/
structure ViewReg where
  name : String
  endpoint : String
  deriving DecidableEq, Repr

/-- Construction of an `AdminView` with an optional explicit endpoint, as in
`AdminView.__init__`. -/
def mkAdminView (name : String) (endpoint : Option String) : ViewReg :=
  ⟨name, endpoint.getD (derive_endpoint name)⟩

/-- Embedding of `QuartAdmin.add_view` (`quart_admin/admin.py`) restricted to
the `_views` registry: the dict `_views[view.name] = view`, modelled as an
association list updated in insertion order (an existing binding of the same
name is overwritten). -/
def add_view (views : List ViewReg) (v : ViewReg) : List ViewReg :=
  if views.any (fun w => w.name = v.name) then
    views.map (fun w => if w.name = v.name then v else w)
  else views ++ [v]

/-- Embedding of the primary-key resolution shared by `ModelView.edit_view`,
`ModelView.details_view` and `ModelView.delete_view`: a single primary-key
column yields `pk_values = {field: id}`; anything else raises
`ValueError("Composite primary keys not yet supported in <view>")`, which is
fatal for the request before any query or mutation happens. -/
def resolve_pk_values (view_name : String) (pk_fields : List String)
    (id : Int) : Except String (List (String × Int)) :=
  match pk_fields with
  | [f] => Except.ok [(f, id)]
  | _ =>
    Except.error ("Composite primary keys not yet supported in " ++ view_name)

/-- Whether a record matches the given primary-key values
(`SQLAlchemyProvider` builds one `where` clause per entry). -/
def matchesPk (pk_values : List (String × Int)) (r : Record) : Bool :=
  pk_values.all (fun kv =>
    match recordGet r kv.1 with
    | Option.some (PyVal.int n) => n == kv.2
    | _ => false)

/-- Embedding of `SQLAlchemyProvider.delete`: the first matching record is
removed and `True` returned; with no match the database is untouched and
`False` returned. -/
def provider_delete (pk_values : List (String × Int)) (db : List Record) :
    Bool × List Record :=
  if db.any (matchesPk pk_values) then (true, db.eraseP (matchesPk pk_values))
  else (false, db)

/-- Embedding of `ModelView.delete_view`: resolve the primary key (fatal
error on composite keys, before touching the database), then delegate to the
provider's delete. -/
def delete_view_model (pk_fields : List String) (id : Int)
    (db : List Record) : Except String (Bool × List Record) :=
  match resolve_pk_values "delete_view" pk_fields id with
  | Except.error e => Except.error e
  | Except.ok pk_values => Except.ok (provider_delete pk_values db)

/-- Overwrite the value of an existing attribute of a record
(`setattr(instance, key, value)`). -/
def setField (r : Record) (k : String) (v : PyVal) : Record :=
  r.map (fun p => if p.1 = k then (k, v) else p)

/-- Embedding of the attribute-assignment loop of `SQLAlchemyProvider.update`
(`for key, value in data.items(): if hasattr(instance, key): setattr(...)`). -/
def apply_update (record : Record) (data : List (String × PyVal)) : Record :=
  data.foldl
    (fun r kv => if (recordGet r kv.1).isSome then setField r kv.1 kv.2 else r)
    record

/-- JSON whitespace, as skipped by `json.loads`. -/
def isWsChar (c : Char) : Bool :=
  c = ' ' || c = '\t' || c = '\n' || c = '\r'

/-- Drops leading JSON whitespace. -/
def skipWs : List Char → List Char
  | [] => []
  | c :: t => if isWsChar c then skipWs t else c :: t

/-- Value of one hexadecimal digit (either case), if any. -/
def hexVal (c : Char) : Option Nat :=
  if 48 ≤ c.toNat ∧ c.toNat ≤ 57 then Option.some (c.toNat - 48)
  else if 97 ≤ c.toNat ∧ c.toNat ≤ 102 then Option.some (c.toNat - 87)
  else if 65 ≤ c.toNat ∧ c.toNat ≤ 70 then Option.some (c.toNat - 55)
  else Option.none

/-- Value of a four-hex-digit escape. -/
def hex4Val (h1 h2 h3 h4 : Char) : Option Nat :=
  match hexVal h1, hexVal h2, hexVal h3, hexVal h4 with
  | Option.some a, Option.some b, Option.some c, Option.some d =>
    Option.some (a * 4096 + b * 256 + c * 16 + d)
  | _, _, _, _ => Option.none

/-- The single-character escapes of JSON string literals. -/
def escMap (c : Char) : Option Char :=
  if c = '"' then Option.some '"'
  else if c = '\\' then Option.some '\\'
  else if c = '/' then Option.some '/'
  else if c = 'b' then Option.some (Char.ofNat 8)
  else if c = 'f' then Option.some (Char.ofNat 12)
  else if c = 'n' then Option.some (Char.ofNat 10)
  else if c = 'r' then Option.some (Char.ofNat 13)
  else if c = 't' then Option.some (Char.ofNat 9)
  else Option.none

/-- Decodes a single character of a JSON string-literal body (the opening
quote already consumed, the closing quote not yet reached): either a raw
character or an escape sequence; a \uXXXX high surrogate must be completed by
a \uXXXX low surrogate (lone surrogates are outside the embedding, since they
do not denote Unicode scalar values), and raw control characters are rejected
as by `json.loads` in its default strict mode. -/
def decodeOne (c : Char) (t : List Char) : Option (Char × List Char) :=
  if c = '\\' then
    match t with
    | [] => Option.none
    | e :: r =>
      if e = 'u' then
        match r with
        | h1 :: h2 :: h3 :: h4 :: r2 =>
          (match hex4Val h1 h2 h3 h4 with
          | Option.none => Option.none
          | Option.some code =>
            if 55296 ≤ code ∧ code < 56320 then
              match r2 with
              | b2 :: u2 :: g1 :: g2 :: g3 :: g4 :: r3 =>
                if b2 = '\\' then
                  if u2 = 'u' then
                    match hex4Val g1 g2 g3 g4 with
                    | Option.none => Option.none
                    | Option.some lo =>
                      if 56320 ≤ lo ∧ lo < 57344 then
                        Option.some
                          (Char.ofNat
                            (65536 + (code - 55296) * 1024 + (lo - 56320)), r3)
                      else Option.none
                  else Option.none
                else Option.none
              | _ => Option.none
            else if 56320 ≤ code ∧ code < 57344 then Option.none
            else Option.some (Char.ofNat code, r2))
        | _ => Option.none
      else
        match escMap e with
        | Option.some d => Option.some (d, r)
        | Option.none => Option.none
  else if c.toNat < 32 then Option.none
  else Option.some (c, t)

/-- Parses the body of a JSON string literal up to and including the closing
quote, decoding one character at a time via `decodeOne`.  The fuel only
bounds the number of decoded characters; `parseStringBody` supplies enough. -/
def parseStrF : Nat → List Char → Option (List Char × List Char)
  | 0, _ => Option.none
  | _ + 1, [] => Option.none
  | f + 1, c :: t =>
    if c = '"' then Option.some ([], t)
    else
      match decodeOne c t with
      | Option.none => Option.none
      | Option.some (d, r) => (parseStrF f r).map (fun p => (d :: p.1, p.2))

/-- The body of a JSON string literal, after the opening quote: every decoded
character consumes at least one input character, so this fuel suffices. -/
def parseStringBody (s : List Char) : Option (List Char × List Char) :=
  parseStrF (s.length + 1) s

/-- Parses a JSON integer numeral (an optional minus sign has already been
consumed when `neg` is set).  A following fraction or exponent marker means
the numeral denotes a float, which is outside the embedding, so it is
rejected; serializer output never produces one. -/
def parseNum (neg : Bool) (s : List Char) : Option (PyVal × List Char) :=
  let p := takeDigits s
  match p.1 with
  | [] => Option.none
  | _ :: _ =>
    let n : Int := Int.ofNat (digitsToNat p.1)
    let v := PyVal.int (if neg then -n else n)
    match p.2 with
    | c :: _ =>
      if c = '.' ∨ c = 'e' ∨ c = 'E' then Option.none else Option.some (v, p.2)
    | [] => Option.some (v, p.2)

/-- Drops an expected literal character sequence, returning the remainder. -/
def dropPre : List Char → List Char → Option (List Char)
  | [], s => Option.some s
  | _ :: _, [] => Option.none
  | p :: pt, c :: t => if c = p then dropPre pt t else Option.none

/-- Whether a character list starts with the given character. -/
def headIs (c : Char) : List Char → Bool
  | [] => false
  | x :: _ => x = c

mutual

/-- Recursive-descent JSON value parser with fuel (the fuel only bounds
nesting and list length; `pyJsonLoads` supplies enough for its input).
Leading whitespace is skipped, then the value is dispatched on its first
character exactly as `json.loads` does. -/
def parseVal : Nat → List Char → Option (PyVal × List Char)
  | 0, _ => Option.none
  | fuel + 1, s =>
    match skipWs s with
    | [] => Option.none
    | c :: t =>
      if c = 'n' then (dropPre ['u', 'l', 'l'] t).map (fun r => (PyVal.none, r))
      else if c = 't' then
        (dropPre ['r', 'u', 'e'] t).map (fun r => (PyVal.bool true, r))
      else if c = 'f' then
        (dropPre ['a', 'l', 's', 'e'] t).map (fun r => (PyVal.bool false, r))
      else if c = '"' then
        (parseStringBody t).map (fun p => (PyVal.str ⟨p.1⟩, p.2))
      else if c = '[' then
        if headIs ']' (skipWs t) then
          Option.some (PyVal.list PyList.nil, (skipWs t).tail)
        else (parseItems fuel t).map (fun p => (PyVal.list p.1, p.2))
      else if c = '{' then
        if headIs '}' (skipWs t) then
          Option.some (PyVal.dict PyFields.nil, (skipWs t).tail)
        else (parseMembers fuel t).map (fun p => (PyVal.dict p.1, p.2))
      else if c = '-' then parseNum true t
      else parseNum false (c :: t)

/-- Parses the comma-separated items of a nonempty JSON array, consuming the
closing bracket. -/
def parseItems : Nat → List Char → Option (PyList × List Char)
  | 0, _ => Option.none
  | fuel + 1, s =>
    match parseVal fuel s with
    | Option.none => Option.none
    | Option.some (v, r) =>
      match skipWs r with
      | ',' :: r2 => (parseItems fuel r2).map (fun p => (PyList.cons v p.1, p.2))
      | ']' :: r2 => Option.some (PyList.cons v PyList.nil, r2)
      | _ => Option.none

/-- Parses the comma-separated members of a nonempty JSON object, consuming
the closing brace. -/
def parseMembers : Nat → List Char → Option (PyFields × List Char)
  | 0, _ => Option.none
  | fuel + 1, s =>
    match skipWs s with
    | '"' :: r =>
      (match parseStringBody r with
      | Option.none => Option.none
      | Option.some (kcs, r1) =>
        match skipWs r1 with
        | ':' :: r2 =>
          (match parseVal fuel r2 with
          | Option.none => Option.none
          | Option.some (v, r3) =>
            match skipWs r3 with
            | ',' :: r4 =>
              (parseMembers fuel r4).map (fun p =>
                (PyFields.cons ⟨kcs⟩ v p.1, p.2))
            | '}' :: r4 => Option.some (PyFields.cons ⟨kcs⟩ v PyFields.nil, r4)
            | _ => Option.none)
        | _ => Option.none)
    | _ => Option.none

end

/-- Embedding of `json.loads` on the integral fragment of JSON: parse one
value, then require only trailing whitespace.  Returns `none` where
`json.loads` raises (or where the document contains floats, which are outside
the embedding). -/
def pyJsonLoads (s : String) : Option PyVal :=
  match parseVal (s.data.length + 1) s.data with
  | Option.some (v, r) => if (skipWs r).isEmpty then Option.some v else Option.none
  | Option.none => Option.none

mutual

/-- Whether a value is on the serializer's fallback-free path: built only
from `None`, booleans, integers, strings, lists and string-keyed dicts, with
no leaf that `json.dumps` would need to pass through `default=str`. -/
def jsonPure : PyVal → Bool
  | PyVal.none => true
  | PyVal.bool _ => true
  | PyVal.int _ => true
  | PyVal.str _ => true
  | PyVal.list xs => jsonPureL xs
  | PyVal.dict fs => jsonPureF fs
  | PyVal.datetime _ _ _ _ _ _ => false
  | PyVal.obj _ => false

/-- Fallback-free check for list elements. -/
def jsonPureL : PyList → Bool
  | PyList.nil => true
  | PyList.cons h t => jsonPure h && jsonPureL t

/-- Fallback-free check for dict values. -/
def jsonPureF : PyFields → Bool
  | PyFields.nil => true
  | PyFields.cons _ v t => jsonPure v && jsonPureF t

end

mutual

/-- Fuel sufficient for `parseVal` to parse this value's serialization. -/
def needV : PyVal → Nat
  | PyVal.list (PyList.cons h t) => 1 + needL (PyList.cons h t)
  | PyVal.dict (PyFields.cons k v t) => 1 + needF (PyFields.cons k v t)
  | _ => 1

/-- Fuel sufficient for `parseItems` on these serialized items. -/
def needL : PyList → Nat
  | PyList.nil => 0
  | PyList.cons h t => 1 + max (needV h) (needL t)

/-- Fuel sufficient for `parseMembers` on these serialized members. -/
def needF : PyFields → Nat
  | PyFields.nil => 0
  | PyFields.cons _ v t => 1 + max (needV v) (needF t)

end

/-- The names of the columns that receive a form field in
`WTFormsGenerator.create_form`: excluded columns are skipped, and a
primary-key column is skipped only when no existing record (`obj`) is
supplied — so in edit mode the primary-key field is present on the form. -/
def form_field_names (model_fields : List ColumnInfo) (excluded : List String)
    (has_obj : Bool) : List String :=
  (model_fields.filter
    (fun f => !excluded.contains f.name && (!f.primary_key || has_obj))).map
    (·.name)

/-- A continuation after a serialized integer from which `parseNum` stops:
it does not begin with a digit or a fraction/exponent marker. -/
def numStop (rest : List Char) : Prop :=
  ∀ c, rest.head? = Option.some c →
    c.isDigit = false ∧ c ≠ '.' ∧ c ≠ 'e' ∧ c ≠ 'E'

/-! ### Character and digit lemmas -/

theorem char_toNat_ofNat (n : Nat) (h : n.isValidChar) :
    (Char.ofNat n).toNat = n := by
  simp [Char.ofNat, h, Char.ofNatAux, Char.toNat, UInt32.toNat, UInt32.ofNatCore]

theorem isDigit_iff (c : Char) :
    c.isDigit = true ↔ 48 ≤ c.toNat ∧ c.toNat ≤ 57 := by
  simp only [Char.isDigit, Char.le_def, Char.toNat, Bool.and_eq_true,
    decide_eq_true_eq, ge_iff_le]
  exact ⟨fun h => ⟨h.1, h.2⟩, fun h => ⟨h.1, h.2⟩⟩

theorem ne_of_toNat_ne {c d : Char} (h : c.toNat ≠ d.toNat) : c ≠ d :=
  fun e => h (by rw [e])

theorem natDigitsF_fuel (n : Nat) :
    ∀ f1 f2, n < f1 → n < f2 → natDigitsF f1 n = natDigitsF f2 n := by
  induction n using Nat.strong_induction_on with
  | _ n ih =>
    intro f1 f2 h1 h2
    match f1, f2 with
    | g1 + 1, g2 + 1 =>
      simp only [natDigitsF]
      by_cases h10 : n < 10
      · simp [h10]
      · have hd : n / 10 < n := Nat.div_lt_self (by omega) (by omega)
        simp only [if_neg h10]
        rw [ih (n / 10) hd g1 g2 (by omega) (by omega)]

theorem natDigits_eq_fuel (f n : Nat) (h : n < f) :
    natDigitsF f n = natDigits n :=
  natDigitsF_fuel n f (n + 1) h (by omega)

theorem natDigits_unfold (n : Nat) :
    natDigits n =
      if n < 10 then [Char.ofNat (48 + n)]
      else natDigits (n / 10) ++ [Char.ofNat (48 + n % 10)] := by
  conv_lhs =>
    rw [natDigits]
    rw [show natDigitsF (n + 1) n =
          if n < 10 then [Char.ofNat (48 + n)]
          else natDigitsF n (n / 10) ++ [Char.ofNat (48 + n % 10)] from rfl]
  by_cases h : n < 10
  · simp [h]
  · simp only [if_neg h]
    rw [natDigits_eq_fuel n (n / 10) (Nat.div_lt_self (by omega) (by omega))]

theorem natDigits_all_digit (n : Nat) : ∀ c ∈ natDigits n, c.isDigit = true := by
  induction n using Nat.strong_induction_on with
  | _ n ih =>
    rw [natDigits_unfold n]
    by_cases h : n < 10
    · simp only [if_pos h, List.mem_singleton]
      rintro c rfl
      rw [isDigit_iff, char_toNat_ofNat (48 + n) (Or.inl (by omega))]
      omega
    · have hd : n / 10 < n := Nat.div_lt_self (by omega) (by omega)
      simp only [if_neg h, List.mem_append, List.mem_singleton]
      rintro c (hc | rfl)
      · exact ih (n / 10) hd c hc
      · rw [isDigit_iff, char_toNat_ofNat (48 + n % 10) (Or.inl (by omega))]
        omega

theorem natDigits_ne_nil (n : Nat) : natDigits n ≠ [] := by
  rw [natDigits_unfold n]
  by_cases h : n < 10 <;> simp [h]

theorem digitsToNat_append_one (ds : List Char) (c : Char) :
    digitsToNat (ds ++ [c]) = digitsToNat ds * 10 + (c.toNat - 48) := by
  simp [digitsToNat, List.foldl_append]

theorem digitsToNat_natDigits (n : Nat) : digitsToNat (natDigits n) = n := by
  induction n using Nat.strong_induction_on with
  | _ n ih =>
    rw [natDigits_unfold n]
    by_cases h : n < 10
    · simp only [if_pos h, digitsToNat, List.foldl_cons, List.foldl_nil]
      rw [char_toNat_ofNat (48 + n) (Or.inl (by omega))]
      omega
    · have hd : n / 10 < n := Nat.div_lt_self (by omega) (by omega)
      simp only [if_neg h]
      rw [digitsToNat_append_one, ih (n / 10) hd,
        char_toNat_ofNat (48 + n % 10) (Or.inl (by omega))]
      omega

theorem takeDigits_append (ds rest : List Char)
    (hds : ∀ c ∈ ds, c.isDigit = true)
    (hrest : ∀ c, rest.head? = Option.some c → c.isDigit = false) :
    takeDigits (ds ++ rest) = (ds, rest) := by
  induction ds with
  | nil =>
    cases rest with
    | nil => simp [takeDigits]
    | cons c t => simp [takeDigits, hrest c rfl]
  | cons c t ih =>
    have hc : c.isDigit = true := hds c (by simp)
    simp only [List.cons_append, takeDigits, hc, if_pos, List.append_eq]
    rw [ih (fun d hd => hds d (by simp [hd]))]

/-! ### Whitespace lemmas -/

theorem skipWs_cons_not_ws {c : Char} (t : List Char) (h : isWsChar c = false) :
    skipWs (c :: t) = c :: t := by
  simp [skipWs, h]

theorem skipWs_ws_append (ws x : List Char)
    (h : ∀ c ∈ ws, isWsChar c = true) : skipWs (ws ++ x) = skipWs x := by
  induction ws with
  | nil => simp
  | cons c t ih =>
    simp only [List.cons_append, skipWs, h c (by simp), if_pos]
    exact ih (fun d hd => h d (by simp [hd]))

theorem spacesList_ws (n : Nat) : ∀ c ∈ spacesList n, isWsChar c = true := by
  intro c hc
  rw [spacesList, List.mem_replicate] at hc
  rw [hc.2]
  decide

theorem isWsChar_of_digit {c : Char} (h : c.isDigit = true) :
    isWsChar c = false := by
  have hv := (isDigit_iff c).mp h
  simp only [isWsChar, Bool.or_eq_false_iff, decide_eq_false_iff_not]
  refine ⟨⟨⟨?_, ?_⟩, ?_⟩, ?_⟩ <;>
    · rintro rfl
      revert hv
      decide

/-! ### Number parsing lemmas -/

theorem parseNum_natDigits (neg : Bool) (m : Nat) (rest : List Char)
    (hrest : numStop rest) :
    parseNum neg (natDigits m ++ rest) =
      Option.some
        (PyVal.int (if neg then -(Int.ofNat m) else Int.ofNat m), rest) := by
  have htd : takeDigits (natDigits m ++ rest) = (natDigits m, rest) :=
    takeDigits_append _ _ (natDigits_all_digit m)
      (fun c hc => (hrest c hc).1)
  obtain ⟨c0, t0, h0⟩ : ∃ c0 t0, natDigits m = c0 :: t0 := by
    cases hnd : natDigits m with
    | nil => exact absurd hnd (natDigits_ne_nil m)
    | cons a b => exact ⟨a, b, rfl⟩
  simp only [parseNum]
  rw [htd]
  simp only [h0]
  rw [← h0, digitsToNat_natDigits]
  cases hr : rest with
  | nil => simp
  | cons c t =>
    have hc := hrest c (by rw [hr]; rfl)
    simp [hc.2.1, hc.2.2.1, hc.2.2.2]

/-! ### String encoding round trip -/

theorem hexVal_hexDigitChar (d : Nat) (h : d < 16) :
    hexVal (hexDigitChar d) = Option.some d := by
  by_cases h10 : d < 10
  · have ht : (hexDigitChar d).toNat = 48 + d := by
      rw [hexDigitChar, if_pos h10]
      exact char_toNat_ofNat _ (Or.inl (by omega))
    rw [hexVal, ht, if_pos (by omega)]
    congr 1
    omega
  · have ht : (hexDigitChar d).toNat = 87 + d := by
      rw [hexDigitChar, if_neg h10]
      exact char_toNat_ofNat _ (Or.inl (by omega))
    rw [hexVal, ht, if_neg (by omega), if_pos (by omega)]
    congr 1
    omega

theorem hex4Val_chars (n : Nat) (h : n < 65536) :
    hex4Val (hexDigitChar (n / 4096 % 16)) (hexDigitChar (n / 256 % 16))
      (hexDigitChar (n / 16 % 16)) (hexDigitChar (n % 16)) = Option.some n := by
  rw [hex4Val, hexVal_hexDigitChar _ (Nat.mod_lt _ (by omega)),
    hexVal_hexDigitChar _ (Nat.mod_lt _ (by omega)),
    hexVal_hexDigitChar _ (Nat.mod_lt _ (by omega)),
    hexVal_hexDigitChar _ (Nat.mod_lt _ (by omega))]
  exact congrArg Option.some (by omega)

theorem decodeOne_surrogate (hi lo : Nat) (X : List Char)
    (hhi : 55296 ≤ hi ∧ hi < 56320) (hlo : 56320 ≤ lo ∧ lo < 57344) :
    decodeOne '\\' (('u' :: (hex4Chars hi ++ ('\\' :: 'u' :: hex4Chars lo))) ++ X) =
      Option.some (Char.ofNat (65536 + (hi - 55296) * 1024 + (lo - 56320)), X) := by
  simp only [hex4Chars, decodeOne, List.cons_append, List.nil_append,
    if_pos rfl, reduceIte,
    hex4Val_chars hi (by omega), hex4Val_chars lo (by omega),
    if_pos hhi, if_pos hlo]

theorem decodeOne_encChar (c : Char) (X : List Char) :
    ∃ c0 tl, encChar c = c0 :: tl ∧ c0 ≠ '"' ∧
      decodeOne c0 (tl ++ X) = Option.some (c, X) := by
  rw [encChar]
  by_cases h1 : c = '"'
  · subst h1
    exact ⟨'\\', ['"'], by rw [if_pos rfl], by decide, by simp [decodeOne, escMap]⟩
  · rw [if_neg h1]
    by_cases h2 : c = '\\'
    · subst h2
      exact ⟨'\\', ['\\'], by rw [if_pos rfl], by decide,
        by simp [decodeOne, escMap]⟩
    · rw [if_neg h2]
      by_cases h3 : c = Char.ofNat 8
      · subst h3
        exact ⟨'\\', ['b'], by rw [if_pos rfl], by decide,
          by simp [decodeOne, escMap]⟩
      · rw [if_neg h3]
        by_cases h4 : c = Char.ofNat 9
        · subst h4
          exact ⟨'\\', ['t'], by rw [if_pos rfl], by decide,
            by simp [decodeOne, escMap]⟩
        · rw [if_neg h4]
          by_cases h5 : c = Char.ofNat 10
          · subst h5
            exact ⟨'\\', ['n'], by rw [if_pos rfl], by decide,
              by simp [decodeOne, escMap]⟩
          · rw [if_neg h5]
            by_cases h6 : c = Char.ofNat 12
            · subst h6
              exact ⟨'\\', ['f'], by rw [if_pos rfl], by decide,
                by simp [decodeOne, escMap]⟩
            · rw [if_neg h6]
              by_cases h7 : c = Char.ofNat 13
              · subst h7
                exact ⟨'\\', ['r'], by rw [if_pos rfl], by decide,
                  by simp [decodeOne, escMap]⟩
              · rw [if_neg h7]
                by_cases h8 : c.toNat < 32
                · rw [if_pos h8, hex4Chars]
                  refine ⟨'\\', _, rfl, by decide, ?_⟩
                  simp only [decodeOne, List.cons_append, List.nil_append,
                    if_pos rfl, reduceIte, hex4Val_chars c.toNat
                      (by omega : c.toNat < 65536)]
                  rw [if_neg (by omega), if_neg (by omega), Char.ofNat_toNat]
                · rw [if_neg h8]
                  by_cases h9 : c.toNat < 127
                  · rw [if_pos h9]
                    refine ⟨c, [], rfl, h1, ?_⟩
                    simp only [decodeOne, List.nil_append, if_neg h2,
                      if_neg h8]
                  · rw [if_neg h9]
                    by_cases h10 : c.toNat < 65536
                    · rw [if_pos h10, hex4Chars]
                      refine ⟨'\\', _, rfl, by decide, ?_⟩
                      have hval : c.toNat < 55296 ∨
                          57343 < c.toNat ∧ c.toNat < 1114112 := c.valid
                      simp only [decodeOne, List.cons_append, List.nil_append,
                        if_pos rfl, reduceIte, hex4Val_chars c.toNat
                          (by omega : c.toNat < 65536)]
                      rw [if_neg (by rcases hval with hv | hv <;> omega),
                        if_neg (by rcases hval with hv | hv <;> omega),
                        Char.ofNat_toNat]
                    · rw [if_neg h10]
                      have hval : c.toNat < 55296 ∨
                          57343 < c.toNat ∧ c.toNat < 1114112 := c.valid
                      have hm : c.toNat < 1114112 := by
                        rcases hval with hv | hv <;> omega
                      refine ⟨'\\', 'u' :: (hex4Chars (55296 + (c.toNat - 65536) / 1024) ++
                        ('\\' :: 'u' :: hex4Chars (56320 + (c.toNat - 65536) % 1024))),
                        by simp only [List.cons_append], by decide, ?_⟩
                      rw [decodeOne_surrogate _ _ X (by omega) (by omega)]
                      have heq : 65536 +
                          (55296 + (c.toNat - 65536) / 1024 - 55296) * 1024 +
                          (56320 + (c.toNat - 65536) % 1024 - 56320) =
                          c.toNat := by omega
                      rw [heq, Char.ofNat_toNat]

theorem encChar_length_pos (c : Char) : 1 ≤ (encChar c).length := by
  obtain ⟨c0, tl, henc, -, -⟩ := decodeOne_encChar c []
  rw [henc]
  simp

theorem encodeChars_length (cs : List Char) :
    cs.length ≤ (encodeChars cs).length := by
  induction cs with
  | nil => simp [encodeChars]
  | cons c t ih =>
    rw [encodeChars, List.length_append, List.length_cons]
    have := encChar_length_pos c
    omega

theorem parseStrF_enc (cs : List Char) :
    ∀ fuel rest, cs.length < fuel →
      parseStrF fuel (encodeChars cs ++ '"' :: rest) = Option.some (cs, rest) := by
  induction cs with
  | nil =>
    intro fuel rest h
    match fuel, h with
    | f + 1, _ => simp [encodeChars, parseStrF]
  | cons c t ih =>
    intro fuel rest h
    match fuel, h with
    | f + 1, h =>
      obtain ⟨c0, tl, henc, hq, hdec⟩ :=
        decodeOne_encChar c (encodeChars t ++ '"' :: rest)
      rw [encodeChars, List.append_assoc, henc, List.cons_append]
      simp only [parseStrF, if_neg hq, hdec]
      rw [ih f rest (by simpa using h)]
      rfl

theorem parseStringBody_enc (cs rest : List Char) :
    parseStringBody (encodeChars cs ++ '"' :: rest) = Option.some (cs, rest) := by
  rw [parseStringBody]
  apply parseStrF_enc
  have := encodeChars_length cs
  simp only [List.length_append, List.length_cons]
  omega

/-! ### Serializer shape lemmas -/

theorem isWsChar_cases {c : Char} (h : isWsChar c = true) :
    c = ' ' ∨ c = '\t' ∨ c = '\n' ∨ c = '\x0d' := by
  simp only [isWsChar, Bool.or_eq_true, decide_eq_true_eq] at h
  tauto

theorem numStop_ws_punct (ws2 : List Char) (b : Char) (rest : List Char)
    (hws2 : ∀ c ∈ ws2, isWsChar c = true)
    (hb : b.isDigit = false ∧ b ≠ '.' ∧ b ≠ 'e' ∧ b ≠ 'E') :
    numStop (ws2 ++ b :: rest) := by
  intro c hc
  cases ws2 with
  | nil =>
    simp only [List.nil_append, List.head?_cons, Option.some.injEq] at hc
    subst hc
    exact hb
  | cons w t =>
    simp only [List.cons_append, List.head?_cons, Option.some.injEq] at hc
    cases hc
    rcases isWsChar_cases (hws2 c (by simp)) with rfl | rfl | rfl | rfl <;>
      exact ⟨by decide, by decide, by decide, by decide⟩

theorem numStop_punct (b : Char) (rest : List Char)
    (hb : b.isDigit = false ∧ b ≠ '.' ∧ b ≠ 'e' ∧ b ≠ 'E') :
    numStop (b :: rest) :=
  numStop_ws_punct [] b rest (by simp) hb

theorem dumpVal_head (ind : Nat) (v : PyVal) :
    ∃ c0 tl, dumpVal ind v = c0 :: tl ∧ isWsChar c0 = false ∧
      c0 ≠ ']' ∧ c0 ≠ '}' := by
  cases v with
  | int n =>
    rw [dumpVal, intChars]
    by_cases hn : n < 0
    · rw [if_pos hn]
      refine ⟨_, _, rfl, ?_, ?_, ?_⟩ <;> decide
    · rw [if_neg hn]
      cases hnd : natDigits n.natAbs with
      | nil => exact absurd hnd (natDigits_ne_nil _)
      | cons c0 t0 =>
        have hd : c0.isDigit = true :=
          natDigits_all_digit _ c0 (by rw [hnd]; simp)
        have hv := (isDigit_iff c0).mp hd
        refine ⟨c0, t0, rfl, isWsChar_of_digit hd, ?_, ?_⟩
        · exact ne_of_toNat_ne (by rw [show (']').toNat = 93 from rfl]; omega)
        · exact ne_of_toNat_ne (by rw [show ('}').toNat = 125 from rfl]; omega)
  | bool b => cases b <;> (refine ⟨_, _, rfl, ?_, ?_, ?_⟩ <;> decide)
  | list xs => cases xs <;> (refine ⟨_, _, rfl, ?_, ?_, ?_⟩ <;> decide)
  | dict fs => cases fs <;> (refine ⟨_, _, rfl, ?_, ?_, ?_⟩ <;> decide)
  | none => refine ⟨_, _, rfl, ?_, ?_, ?_⟩ <;> decide
  | str s => refine ⟨_, _, rfl, ?_, ?_, ?_⟩ <;> decide
  | datetime y mo d h mi sec => refine ⟨_, _, rfl, ?_, ?_, ?_⟩ <;> decide
  | obj s => refine ⟨_, _, rfl, ?_, ?_, ?_⟩ <;> decide

theorem skipWs_dump_append (ind : Nat) (v : PyVal) (Z : List Char) :
    skipWs (dumpVal ind v ++ Z) = dumpVal ind v ++ Z := by
  obtain ⟨c0, tl, heq, hws, -, -⟩ := dumpVal_head ind v
  rw [heq, List.cons_append, skipWs_cons_not_ws _ hws]

theorem headIs_dump_append (b : Char) (ind : Nat) (v : PyVal) (Z : List Char)
    (hb : ∀ c0 tl, dumpVal ind v = c0 :: tl → c0 ≠ b) :
    headIs b (dumpVal ind v ++ Z) = false := by
  obtain ⟨c0, tl, heq, -, -, -⟩ := dumpVal_head ind v
  rw [heq, List.cons_append, headIs]
  simp [hb c0 tl heq]

theorem wsOnly_append {ws1 ws2 : List Char}
    (h1 : ∀ c ∈ ws1, isWsChar c = true) (h2 : ∀ c ∈ ws2, isWsChar c = true) :
    ∀ c ∈ ws1 ++ ws2, isWsChar c = true := by
  intro c hc
  rcases List.mem_append.mp hc with h | h
  · exact h1 c h
  · exact h2 c h


theorem skipWs_cons_of_ws {c : Char} (t : List Char) (h : isWsChar c = true) :
    skipWs (c :: t) = skipWs t := by
  simp [skipWs, h]

theorem headIs_skipWs_items (b : Char) (ind : Nat) (h : PyVal) (t : PyList)
    (Z : List Char) (hb : b = ']' ∨ b = '}') :
    headIs b (skipWs ('\n' :: (dumpItems ind (PyList.cons h t) ++ Z))) =
      false := by
  rw [skipWs_cons_of_ws _ (by decide)]
  obtain ⟨c0, tl, heq, -, hne1, hne2⟩ := dumpVal_head ind h
  cases t with
  | nil =>
    rw [dumpItems, List.append_assoc,
      skipWs_ws_append _ _ (spacesList_ws ind), skipWs_dump_append,
      heq, List.cons_append, headIs]
    rcases hb with rfl | rfl
    · simp [hne1]
    · simp [hne2]
  | cons h2 t2 =>
    rw [dumpItems, List.append_assoc, List.append_assoc,
      skipWs_ws_append _ _ (spacesList_ws ind), skipWs_dump_append,
      heq, List.cons_append, headIs]
    rcases hb with rfl | rfl
    · simp [hne1]
    · simp [hne2]

theorem headIs_skipWs_fields (b : Char) (ind : Nat) (k : String) (v : PyVal)
    (t : PyFields) (Z : List Char) (hb : b = ']' ∨ b = '}') :
    headIs b (skipWs ('\n' :: (dumpFields ind (PyFields.cons k v t) ++ Z))) =
      false := by
  rw [skipWs_cons_of_ws _ (by decide)]
  cases t with
  | nil =>
    rw [dumpFields, encodeStringLit]
    simp only [List.cons_append, List.append_assoc]
    rw [skipWs_ws_append _ _ (spacesList_ws ind),
      skipWs_cons_not_ws _ (by decide), headIs]
    rcases hb with rfl | rfl <;> simp
  | cons k2 v2 t2 =>
    rw [dumpFields, encodeStringLit]
    simp only [List.cons_append, List.append_assoc]
    rw [skipWs_ws_append _ _ (spacesList_ws ind),
      skipWs_cons_not_ws _ (by decide), headIs]
    rcases hb with rfl | rfl <;> simp

mutual

theorem rtV : ∀ (v : PyVal) (fuel ind : Nat) (ws rest : List Char),
    jsonPure v = true → needV v ≤ fuel → (∀ c ∈ ws, isWsChar c = true) →
    numStop rest →
    parseVal fuel (ws ++ (dumpVal ind v ++ rest)) = Option.some (v, rest)
  | PyVal.none, fuel, ind, ws, rest => by
    intro hp hf hws hstop
    cases fuel with
    | zero => exact absurd hf (by simp [needV])
    | succ g =>
      simp only [dumpVal, List.cons_append, List.nil_append]
      simp only [parseVal]
      rw [skipWs_ws_append _ _ hws, skipWs_cons_not_ws _ (by decide)]
      simp [dropPre]
  | PyVal.bool true, fuel, ind, ws, rest => by
    intro hp hf hws hstop
    cases fuel with
    | zero => exact absurd hf (by simp [needV])
    | succ g =>
      simp only [dumpVal, List.cons_append, List.nil_append]
      simp only [parseVal]
      rw [skipWs_ws_append _ _ hws, skipWs_cons_not_ws _ (by decide)]
      simp [dropPre]
  | PyVal.bool false, fuel, ind, ws, rest => by
    intro hp hf hws hstop
    cases fuel with
    | zero => exact absurd hf (by simp [needV])
    | succ g =>
      simp only [dumpVal, List.cons_append, List.nil_append]
      simp only [parseVal]
      rw [skipWs_ws_append _ _ hws, skipWs_cons_not_ws _ (by decide)]
      simp [dropPre]
  | PyVal.int n, fuel, ind, ws, rest => by
    intro hp hf hws hstop
    cases fuel with
    | zero => exact absurd hf (by simp [needV])
    | succ g =>
      simp only [dumpVal, intChars]
      by_cases hn : n < 0
      · rw [if_pos hn]
        simp only [List.cons_append]
        simp only [parseVal]
        rw [skipWs_ws_append _ _ hws, skipWs_cons_not_ws _ (by decide)]
        simp only [Char.reduceEq, reduceIte]
        rw [parseNum_natDigits true n.natAbs rest hstop]
        have habs : -Int.ofNat n.natAbs = n := by
          show -(n.natAbs : ℤ) = n
          omega
        simp only [reduceIte, habs]
      · rw [if_neg hn]
        cases hnd : natDigits n.natAbs with
        | nil => exact absurd hnd (natDigits_ne_nil _)
        | cons c0 t0 =>
          have hd : c0.isDigit = true :=
            natDigits_all_digit _ c0 (by rw [hnd]; simp)
          have hv := (isDigit_iff c0).mp hd
          have hne : ∀ d : Char, 58 ≤ d.toNat ∨ d.toNat ≤ 47 → c0 ≠ d :=
            fun d hd2 => ne_of_toNat_ne (by omega)
          rw [List.cons_append]
          simp only [parseVal]
          rw [skipWs_ws_append _ _ hws,
            skipWs_cons_not_ws _ (isWsChar_of_digit hd)]
          simp only []
          rw [if_neg (hne 'n' (by decide)), if_neg (hne 't' (by decide)),
            if_neg (hne 'f' (by decide)), if_neg (hne '"' (by decide)),
            if_neg (hne '[' (by decide)), if_neg (hne '{' (by decide)),
            if_neg (hne '-' (by decide))]
          rw [← List.cons_append, ← hnd,
            parseNum_natDigits false n.natAbs rest hstop]
          have habs : Int.ofNat n.natAbs = n := by
            show (n.natAbs : ℤ) = n
            omega
          simp only [reduceIte, habs]
          rfl
  | PyVal.str s, fuel, ind, ws, rest => by
    intro hp hf hws hstop
    cases fuel with
    | zero => exact absurd hf (by simp [needV])
    | succ g =>
      simp only [dumpVal, encodeStringLit, List.cons_append, List.append_assoc,
        List.nil_append]
      simp only [parseVal]
      rw [skipWs_ws_append _ _ hws, skipWs_cons_not_ws _ (by decide)]
      simp only [Char.reduceEq, reduceIte]
      rw [parseStringBody_enc s.data rest]
      rfl
  | PyVal.datetime y mo d h mi sec, fuel, ind, ws, rest => by
    intro hp hf hws hstop
    exact absurd hp (by simp [jsonPure])
  | PyVal.obj s, fuel, ind, ws, rest => by
    intro hp hf hws hstop
    exact absurd hp (by simp [jsonPure])
  | PyVal.list PyList.nil, fuel, ind, ws, rest => by
    intro hp hf hws hstop
    cases fuel with
    | zero => exact absurd hf (by simp [needV])
    | succ g =>
      simp only [dumpVal, List.cons_append, List.nil_append]
      simp only [parseVal]
      rw [skipWs_ws_append _ _ hws, skipWs_cons_not_ws _ (by decide)]
      simp only [Char.reduceEq, reduceIte]
      rw [skipWs_cons_not_ws _ (by decide)]
      simp [headIs]
  | PyVal.list (PyList.cons h t), fuel, ind, ws, rest => by
    intro hp hf hws hstop
    cases fuel with
    | zero => exact absurd hf (by simp [needV])
    | succ g =>
      simp only [jsonPure] at hp
      simp only [needV] at hf
      have hfL : needL (PyList.cons h t) ≤ g := by omega
      simp only [dumpVal, List.cons_append, List.append_assoc, List.nil_append]
      simp only [parseVal]
      rw [skipWs_ws_append _ _ hws, skipWs_cons_not_ws _ (by decide)]
      simp only [Char.reduceEq, reduceIte]
      rw [headIs_skipWs_items ']' (ind + 2) h t _ (Or.inl rfl)]
      simp only [Bool.false_eq_true, if_false]
      have hL := rtL (PyList.cons h t) g (ind + 2) ['\n']
        ('\n' :: spacesList ind) rest (by intro hcon; cases hcon) hp hfL
        (by intro c hc; simp at hc; subst hc; decide)
        (by
          intro c hc
          rcases List.mem_cons.mp hc with rfl | hc2
          · decide
          · exact spacesList_ws ind c hc2)
      simp only [List.singleton_append, List.cons_append, List.nil_append,
        List.append_assoc] at hL
      rw [hL]
      rfl
  | PyVal.dict PyFields.nil, fuel, ind, ws, rest => by
    intro hp hf hws hstop
    cases fuel with
    | zero => exact absurd hf (by simp [needV])
    | succ g =>
      simp only [dumpVal, List.cons_append, List.nil_append]
      simp only [parseVal]
      rw [skipWs_ws_append _ _ hws, skipWs_cons_not_ws _ (by decide)]
      simp only [Char.reduceEq, reduceIte]
      rw [skipWs_cons_not_ws _ (by decide)]
      simp [headIs]
  | PyVal.dict (PyFields.cons k v t), fuel, ind, ws, rest => by
    intro hp hf hws hstop
    cases fuel with
    | zero => exact absurd hf (by simp [needV])
    | succ g =>
      simp only [jsonPure] at hp
      simp only [needV] at hf
      have hfF : needF (PyFields.cons k v t) ≤ g := by omega
      simp only [dumpVal, List.cons_append, List.append_assoc, List.nil_append]
      simp only [parseVal]
      rw [skipWs_ws_append _ _ hws, skipWs_cons_not_ws _ (by decide)]
      simp only [Char.reduceEq, reduceIte]
      rw [headIs_skipWs_fields '}' (ind + 2) k v t _ (Or.inr rfl)]
      simp only [Bool.false_eq_true, if_false]
      have hF := rtF (PyFields.cons k v t) g (ind + 2) ['\n']
        ('\n' :: spacesList ind) rest (by intro hcon; cases hcon) hp hfF
        (by intro c hc; simp at hc; subst hc; decide)
        (by
          intro c hc
          rcases List.mem_cons.mp hc with rfl | hc2
          · decide
          · exact spacesList_ws ind c hc2)
      simp only [List.singleton_append, List.cons_append, List.nil_append,
        List.append_assoc] at hF
      rw [hF]
      rfl

theorem rtL : ∀ (xs : PyList) (fuel ind : Nat) (ws ws2 rest : List Char),
    xs ≠ PyList.nil → jsonPureL xs = true → needL xs ≤ fuel →
    (∀ c ∈ ws, isWsChar c = true) → (∀ c ∈ ws2, isWsChar c = true) →
    parseItems fuel (ws ++ (dumpItems ind xs ++ (ws2 ++ (']' :: rest)))) =
      Option.some (xs, rest)
  | PyList.nil, fuel, ind, ws, ws2, rest => by
    intro hne
    exact absurd rfl hne
  | PyList.cons h t, fuel, ind, ws, ws2, rest => by
    intro hne hp hf hws hws2
    cases fuel with
    | zero => exact absurd hf (by simp [needL])
    | succ g =>
      simp only [jsonPureL, Bool.and_eq_true] at hp
      simp only [needL] at hf
      have hmax : max (needV h) (needL t) ≤ g := by omega
      have hfh : needV h ≤ g := le_trans (le_max_left _ _) hmax
      have hft : needL t ≤ g := le_trans (le_max_right _ _) hmax
      cases t with
      | nil =>
        simp only [dumpItems, List.append_assoc]
        simp only [parseItems]
        have hV := rtV h g ind (ws ++ spacesList ind) (ws2 ++ (']' :: rest))
          hp.1 hfh (wsOnly_append hws (spacesList_ws ind))
          (numStop_ws_punct ws2 ']' rest hws2
            ⟨by decide, by decide, by decide, by decide⟩)
        simp only [List.append_assoc] at hV
        rw [hV]
        simp only []
        rw [skipWs_ws_append _ _ hws2, skipWs_cons_not_ws _ (by decide)]
        rfl
      | cons h2 t2 =>
        simp only [dumpItems, List.cons_append, List.append_assoc]
        simp only [parseItems]
        have hV := rtV h g ind (ws ++ spacesList ind)
          (',' :: ('\n' :: (dumpItems ind (PyList.cons h2 t2) ++
            (ws2 ++ (']' :: rest)))))
          hp.1 hfh (wsOnly_append hws (spacesList_ws ind))
          (numStop_punct ',' _ ⟨by decide, by decide, by decide, by decide⟩)
        simp only [List.append_assoc] at hV
        rw [hV]
        simp only []
        rw [skipWs_cons_not_ws _ (by decide)]
        simp only []
        have hL := rtL (PyList.cons h2 t2) g ind ['\n'] ws2 rest
          (by intro hcon; cases hcon) hp.2 hft
          (by intro c hc; simp at hc; subst hc; decide) hws2
        simp only [List.singleton_append, List.cons_append, List.nil_append,
          List.append_assoc] at hL
        rw [hL]
        rfl

theorem rtF : ∀ (fs : PyFields) (fuel ind : Nat) (ws ws2 rest : List Char),
    fs ≠ PyFields.nil → jsonPureF fs = true → needF fs ≤ fuel →
    (∀ c ∈ ws, isWsChar c = true) → (∀ c ∈ ws2, isWsChar c = true) →
    parseMembers fuel (ws ++ (dumpFields ind fs ++ (ws2 ++ ('}' :: rest)))) =
      Option.some (fs, rest)
  | PyFields.nil, fuel, ind, ws, ws2, rest => by
    intro hne
    exact absurd rfl hne
  | PyFields.cons k v t, fuel, ind, ws, ws2, rest => by
    intro hne hp hf hws hws2
    cases fuel with
    | zero => exact absurd hf (by simp [needF])
    | succ g =>
      simp only [jsonPureF, Bool.and_eq_true] at hp
      simp only [needF] at hf
      have hmax : max (needV v) (needF t) ≤ g := by omega
      have hfv : needV v ≤ g := le_trans (le_max_left _ _) hmax
      have hft : needF t ≤ g := le_trans (le_max_right _ _) hmax
      cases t with
      | nil =>
        simp only [dumpFields, encodeStringLit, List.cons_append,
          List.nil_append, List.append_assoc]
        simp only [parseMembers]
        rw [skipWs_ws_append _ _ hws, skipWs_ws_append _ _ (spacesList_ws ind),
          skipWs_cons_not_ws _ (by decide)]
        simp only []
        rw [parseStringBody_enc k.data
          (':' :: (' ' :: (dumpVal ind v ++ (ws2 ++ ('}' :: rest)))))]
        simp only []
        rw [skipWs_cons_not_ws _ (by decide)]
        simp only []
        have hV := rtV v g ind [' '] (ws2 ++ ('}' :: rest)) hp.1 hfv
          (by intro c hc; simp at hc; subst hc; decide)
          (numStop_ws_punct ws2 '}' rest hws2
            ⟨by decide, by decide, by decide, by decide⟩)
        simp only [List.singleton_append, List.nil_append,
          List.append_assoc] at hV
        rw [hV]
        simp only []
        rw [skipWs_ws_append _ _ hws2, skipWs_cons_not_ws _ (by decide)]
        rfl
      | cons k2 v2 t2 =>
        simp only [dumpFields, encodeStringLit, List.cons_append,
          List.nil_append, List.append_assoc]
        simp only [parseMembers]
        rw [skipWs_ws_append _ _ hws, skipWs_ws_append _ _ (spacesList_ws ind),
          skipWs_cons_not_ws _ (by decide)]
        simp only []
        rw [parseStringBody_enc k.data
          (':' :: (' ' :: (dumpVal ind v ++
            (',' :: ('\n' :: (dumpFields ind (PyFields.cons k2 v2 t2) ++
              (ws2 ++ ('}' :: rest))))))))]
        simp only []
        rw [skipWs_cons_not_ws _ (by decide)]
        simp only []
        have hV := rtV v g ind [' ']
          (',' :: ('\n' :: (dumpFields ind (PyFields.cons k2 v2 t2) ++
            (ws2 ++ ('}' :: rest)))))
          hp.1 hfv (by intro c hc; simp at hc; subst hc; decide)
          (numStop_punct ',' _ ⟨by decide, by decide, by decide, by decide⟩)
        simp only [List.singleton_append, List.nil_append,
          List.append_assoc] at hV
        rw [hV]
        simp only []
        rw [skipWs_cons_not_ws _ (by decide)]
        simp only []
        have hF := rtF (PyFields.cons k2 v2 t2) g ind ['\n'] ws2 rest
          (by intro hcon; cases hcon) hp.2 hft
          (by intro c hc; simp at hc; subst hc; decide) hws2
        simp only [List.singleton_append, List.cons_append, List.nil_append,
          List.append_assoc] at hF
        rw [hF]
        rfl

end

mutual

theorem needV_le : ∀ (v : PyVal) (ind : Nat), needV v ≤ (dumpVal ind v).length
  | PyVal.none, ind => by simp [needV, dumpVal]
  | PyVal.bool true, ind => by simp [needV, dumpVal]
  | PyVal.bool false, ind => by simp [needV, dumpVal]
  | PyVal.int n, ind => by
    have h1 : needV (PyVal.int n) = 1 := by simp [needV]
    rw [h1, dumpVal, intChars]
    by_cases hn : n < 0
    · rw [if_pos hn]
      simp
    · rw [if_neg hn]
      cases hnd : natDigits n.natAbs with
      | nil => exact absurd hnd (natDigits_ne_nil _)
      | cons c0 t0 => simp
  | PyVal.str s, ind => by
    simp [needV, dumpVal, encodeStringLit]
  | PyVal.datetime y mo d h mi sec, ind => by
    simp [needV, dumpVal, encodeStringLit]
  | PyVal.obj s, ind => by
    simp [needV, dumpVal, encodeStringLit]
  | PyVal.list PyList.nil, ind => by simp [needV, dumpVal]
  | PyVal.list (PyList.cons h t), ind => by
    have hL := needL_le (PyList.cons h t) (ind + 2)
    rw [needV, dumpVal]
    simp only [List.length_cons, List.length_append, spacesList,
      List.length_replicate, List.length_singleton]
    omega
  | PyVal.dict PyFields.nil, ind => by simp [needV, dumpVal]
  | PyVal.dict (PyFields.cons k v t), ind => by
    have hF := needF_le (PyFields.cons k v t) (ind + 2)
    rw [needV, dumpVal]
    simp only [List.length_cons, List.length_append, spacesList,
      List.length_replicate, List.length_singleton]
    omega

theorem needL_le : ∀ (xs : PyList) (ind : Nat),
    needL xs ≤ (dumpItems ind xs).length + 1
  | PyList.nil, ind => by simp [needL]
  | PyList.cons h PyList.nil, ind => by
    have hV := needV_le h ind
    rw [needL, dumpItems]
    have hm : max (needV h) (needL PyList.nil) = needV h := by
      simp [needL]
    rw [hm]
    simp only [List.length_append, spacesList, List.length_replicate]
    omega
  | PyList.cons h (PyList.cons h2 t2), ind => by
    have hV := needV_le h ind
    have hL := needL_le (PyList.cons h2 t2) ind
    rw [needL, dumpItems]
    simp only [List.length_append, List.length_cons, spacesList,
      List.length_replicate]
    have hmx : max (needV h) (needL (PyList.cons h2 t2)) ≤
        (dumpVal ind h).length + ((dumpItems ind (PyList.cons h2 t2)).length + 1) :=
      Nat.max_le.mpr ⟨by omega, by omega⟩
    omega

theorem needF_le : ∀ (fs : PyFields) (ind : Nat),
    needF fs ≤ (dumpFields ind fs).length + 1
  | PyFields.nil, ind => by simp [needF]
  | PyFields.cons k v PyFields.nil, ind => by
    have hV := needV_le v ind
    rw [needF, dumpFields]
    have hm : max (needV v) (needF PyFields.nil) = needV v := by
      simp [needF]
    rw [hm]
    simp only [List.length_append, List.length_cons, spacesList,
      List.length_replicate]
    omega
  | PyFields.cons k v (PyFields.cons k2 v2 t2), ind => by
    have hV := needV_le v ind
    have hF := needF_le (PyFields.cons k2 v2 t2) ind
    rw [needF, dumpFields]
    simp only [List.length_append, List.length_cons, spacesList,
      List.length_replicate]
    have hmx : max (needV v) (needF (PyFields.cons k2 v2 t2)) ≤
        (dumpVal ind v).length +
          ((dumpFields ind (PyFields.cons k2 v2 t2)).length + 1) :=
      Nat.max_le.mpr ⟨by omega, by omega⟩
    omega

end

/-- C5: for every JSON-representable value on the serializer's fallback-free
path (no `datetime` or opaque-object leaf, numeric leaves being integers),
parsing the indented dump used on form load gives the value back:
`json.loads(json.dumps(v, indent=2, default=str)) == v`. -/
theorem C5_parse_serialize_round_trip (v : PyVal) (h : jsonPure v = true) :
    pyJsonLoads (pyJsonDumps v) = Option.some v := by
  rw [pyJsonDumps, pyJsonLoads]
  have hV := rtV v ((dumpVal 0 v).length + 1) 0 [] [] h
    (by have := needV_le v 0; omega) (by simp)
    (by intro c hc; simp at hc)
  simp only [List.nil_append, List.append_nil] at hV
  rw [show (String.mk (dumpVal 0 v)).data = dumpVal 0 v from rfl, hV]
  simp [skipWs]

/-- C7: a route handler wrapped by `AdminView._wrap_with_auth` runs untouched
when no authentication provider is configured; with a provider, an
unauthenticated request aborts with 401, an authenticated request without
admin access aborts with 403, and an authenticated admin request runs the
handler. -/
theorem C7_auth_wrapper {α : Type} (h : α) :
    (wrap_with_auth Option.none h = RouteResponse.ok h) ∧
    (∀ p : AuthState, p.authenticated = false →
      wrap_with_auth (Option.some p) h =
        RouteResponse.aborted 401 "Authentication required") ∧
    (∀ p : AuthState, p.authenticated = true → p.admin = false →
      wrap_with_auth (Option.some p) h =
        RouteResponse.aborted 403 "Admin access required") ∧
    (∀ p : AuthState, p.authenticated = true → p.admin = true →
      wrap_with_auth (Option.some p) h = RouteResponse.ok h) := by
  refine ⟨rfl, ?_, ?_, ?_⟩
  · intro p hp
    simp [wrap_with_auth, hp]
  · intro p hp ha
    simp [wrap_with_auth, hp, ha]
  · intro p hp ha
    simp [wrap_with_auth, hp, ha]

/-- C7 witness: the four outcomes at concrete authentication states. -/
theorem C7_auth_wrapper_witness :
    wrap_with_auth Option.none (0 : Nat) = RouteResponse.ok 0 ∧
    wrap_with_auth (Option.some ⟨false, false⟩) (0 : Nat) =
      RouteResponse.aborted 401 "Authentication required" ∧
    wrap_with_auth (Option.some ⟨true, false⟩) (0 : Nat) =
      RouteResponse.aborted 403 "Admin access required" ∧
    wrap_with_auth (Option.some ⟨true, true⟩) (0 : Nat) =
      RouteResponse.ok 0 :=
  ⟨(C7_auth_wrapper 0).1,
   (C7_auth_wrapper 0).2.1 ⟨false, false⟩ rfl,
   (C7_auth_wrapper 0).2.2.1 ⟨true, false⟩ rfl rfl,
   (C7_auth_wrapper 0).2.2.2 ⟨true, true⟩ rfl rfl⟩

/-- C8: the edit/details/delete handlers resolve the primary key first; a
composite (or empty) primary key raises the fatal "Composite primary keys not
yet supported" error before any query or mutation, while a single-column
primary key proceeds with `pk_values = [(field, id)]` — in particular the
delete handler then reaches the provider's delete. -/
theorem C8_composite_pk (pk_fields : List String) (id : Int)
    (db : List Record) (vn : String) :
    (1 < pk_fields.length →
      resolve_pk_values vn pk_fields id =
        Except.error ("Composite primary keys not yet supported in " ++ vn) ∧
      delete_view_model pk_fields id db =
        Except.error "Composite primary keys not yet supported in delete_view") ∧
    (∀ f, pk_fields = [f] →
      resolve_pk_values vn pk_fields id = Except.ok [(f, id)] ∧
      delete_view_model pk_fields id db =
        Except.ok (provider_delete [(f, id)] db)) := by
  constructor
  · intro hlen
    match pk_fields, hlen with
    | f :: g :: t, _ =>
      exact ⟨rfl, rfl⟩
  · rintro f rfl
    exact ⟨rfl, rfl⟩

/-- C8 witness: a two-column key is rejected and a one-column key proceeds,
at concrete inputs. -/
theorem C8_composite_pk_witness :
    resolve_pk_values "edit_view" ["a", "b"] 1 =
      Except.error "Composite primary keys not yet supported in edit_view" ∧
    delete_view_model ["a", "b"] 1 [] =
      Except.error "Composite primary keys not yet supported in delete_view" ∧
    resolve_pk_values "details_view" ["id"] 7 = Except.ok [("id", 7)] ∧
    delete_view_model ["id"] 7 [] = Except.ok (false, []) :=
  ⟨((C8_composite_pk ["a", "b"] 1 [] "edit_view").1 (by decide)).1,
   ((C8_composite_pk ["a", "b"] 1 [] "edit_view").1 (by decide)).2,
   ((C8_composite_pk ["id"] 7 [] "details_view").2 "id" rfl).1,
   ((C8_composite_pk ["id"] 7 [] "delete_view").2 "id" rfl).2⟩

/-- C9: a view's endpoint, when not given explicitly, is the pure function
`name.lower().replace(" ", "_")` of the human-readable name, and registering
views named "User" and "User " produces two registry entries with the
distinct endpoints "user" and "user_" — no silent collision. -/
theorem C9_endpoint_derivation :
    (∀ name : String,
      (mkAdminView name Option.none).endpoint = derive_endpoint name) ∧
    derive_endpoint "User" ≠ derive_endpoint "User " ∧
    add_view (add_view [] (mkAdminView "User" Option.none))
        (mkAdminView "User " Option.none) =
      [⟨"User", "user"⟩, ⟨"User ", "user_"⟩] := by
  refine ⟨fun name => rfl, by decide, by decide⟩

/-- C2 counterexample: for the column `BOOLEAN, nullable=false,
primary_key=false, no default`, the claimed "required iff not nullable, not
primary key, no default" fails: the boolean field is generated without any
validators, so it carries no data-required validator although all three
conditions hold. -/
theorem C2_counterexample :
    ¬ (Validator.dataRequired ∈
        (get_field_for_column
          ⟨"is_active", "BOOLEAN", false, false, Option.none⟩).validators ↔
      ((ColumnInfo.mk "is_active" "BOOLEAN" false false Option.none).nullable
          = false ∧
        (ColumnInfo.mk "is_active" "BOOLEAN" false false
          Option.none).primary_key = false ∧
        (ColumnInfo.mk "is_active" "BOOLEAN" false false
          Option.none).default.isSome = false)) := by
  decide

/-- C2 amended: the generated field carries the data-required validator
exactly when the column is not nullable, is not a primary key, declares no
default value, and does not map to the boolean field (boolean fields are
created without validators). -/
theorem C2_required_validator (c : ColumnInfo) :
    Validator.dataRequired ∈ (get_field_for_column c).validators ↔
      (c.nullable = false ∧ c.primary_key = false ∧
        c.default = Option.none ∧
        (get_field_for_column c).kind ≠ FieldKind.booleanField) := by
  simp only [get_field_for_column]
  split_ifs with h1 h2 h3 h4 h5 h6 h7 <;>
    (try split) <;>
    simp_all [Option.isSome_iff_ne_none]

/-- C6 counterexample: the column type "NUMERIC(100)" matches none of the
earlier type rules and encodes the length 100 in parentheses, yet the
generated string field carries no maximum-length validator, because the code
only extracts the length when the type mentions "varchar" or "char". -/
theorem C6_counterexample :
    findParenLen (pyLower "NUMERIC(100)").data = Option.some 100 ∧
    (get_field_for_column
      ⟨"amount", "NUMERIC(100)", false, false, Option.none⟩).kind =
      FieldKind.stringField ∧
    Validator.lengthMax 100 ∉
      (get_field_for_column
        ⟨"amount", "NUMERIC(100)", false, false, Option.none⟩).validators := by
  decide

/-- C6 amended: a column whose lower-cased type contains none of "int",
"bool", "text", "clob", "json", "datetime", "timestamp" yields a single-line
string field, and that field carries a maximum-length validator `n` exactly
when the type also contains "varchar" or "char" and the leftmost
parenthesised digit run evaluates to `n`. -/
theorem C6_string_field_length (c : ColumnInfo)
    (h1 : pyIn "int" (pyLower c.type) = false)
    (h2 : pyIn "bool" (pyLower c.type) = false)
    (h3 : pyIn "text" (pyLower c.type) = false)
    (h4 : pyIn "clob" (pyLower c.type) = false)
    (h5 : pyIn "json" (pyLower c.type) = false)
    (h6 : pyIn "datetime" (pyLower c.type) = false)
    (h7 : pyIn "timestamp" (pyLower c.type) = false) :
    (get_field_for_column c).kind = FieldKind.stringField ∧
    (∀ n, Validator.lengthMax n ∈ (get_field_for_column c).validators ↔
      ((pyIn "varchar" (pyLower c.type) || pyIn "char" (pyLower c.type)) = true ∧
        findParenLen (pyLower c.type).data = Option.some n)) := by
  simp only [get_field_for_column, h1, h2, h3, h4, h5, h6, h7,
    Bool.or_self, Bool.false_eq_true, if_false]
  constructor
  · trivial
  · intro n
    by_cases hc : (pyIn "varchar" (pyLower c.type) ||
        pyIn "char" (pyLower c.type)) = true
    · rw [if_pos hc]
      simp only [hc, true_and]
      cases hfp : findParenLen (pyLower c.type).data with
      | none =>
        split_ifs <;> simp_all
      | some m =>
        split_ifs <;> simp_all <;> omega
    · rw [if_neg hc]
      simp only [hc, false_and, iff_false]
      split_ifs <;> simp_all

/-- C6 witness: a `VARCHAR(100)` column gets a string field with a
maximum-length validator of 100. -/
theorem C6_string_field_length_witness :
    (get_field_for_column
      ⟨"name", "VARCHAR(100)", false, false, Option.none⟩).kind =
      FieldKind.stringField ∧
    Validator.lengthMax 100 ∈
      (get_field_for_column
        ⟨"name", "VARCHAR(100)", false, false, Option.none⟩).validators :=
  ⟨(C6_string_field_length _ (by decide) (by decide) (by decide) (by decide)
      (by decide) (by decide) (by decide)).1,
   ((C6_string_field_length
        ⟨"name", "VARCHAR(100)", false, false, Option.none⟩
        (by decide) (by decide) (by decide) (by decide) (by decide)
        (by decide) (by decide)).2 100).mpr (by decide)⟩

theorem recordGet_setField_ne (r : Record) (k2 k : String) (v : PyVal)
    (h : k2 ≠ k) : recordGet (setField r k2 v) k = recordGet r k := by
  induction r with
  | nil => rfl
  | cons p t ih =>
    simp only [setField, List.map_cons]
    by_cases hp : p.1 = k2
    · rw [if_pos hp]
      show recordGet ((k2, v) :: _) k = recordGet (p :: t) k
      rw [recordGet, recordGet, if_neg h]
      by_cases hk : p.1 = k
      · exact absurd (hp ▸ hk : k2 = k) h
      · rw [if_neg hk]
        exact ih
    · rw [if_neg hp]
      show recordGet (p :: _) k = recordGet (p :: t) k
      rw [recordGet, recordGet]
      by_cases hk : p.1 = k
      · rw [if_pos hk, if_pos hk]
      · rw [if_neg hk, if_neg hk]
        exact ih

theorem apply_update_preserves (k : String) :
    ∀ (data : List (String × PyVal)) (record : Record),
      (∀ kv ∈ data, kv.1 ≠ k) →
      recordGet (apply_update record data) k = recordGet record k := by
  intro data
  induction data with
  | nil => intro record _; rfl
  | cons kv t ih =>
    intro record h
    have hstep : apply_update record (kv :: t) =
        apply_update
          (if (recordGet record kv.1).isSome then setField record kv.1 kv.2
           else record) t := rfl
    rw [hstep, ih _ (fun kv2 h2 => h kv2 (by simp [h2]))]
    by_cases hs : (recordGet record kv.1).isSome
    · rw [if_pos hs, recordGet_setField_ne _ _ _ _ (h kv (by simp))]
    · rw [if_neg hs]

/-- C10: the field set `ModelView.edit_view` passes to the provider's update
never contains the primary-key column or the CSRF token, so applying the
update leaves the record's primary-key value unchanged — even though edit
mode puts the primary-key field on the form (with no exclusions and an
existing record, every column gets a field). -/
theorem C10_update_excludes_pk (pk : String) (form : SubmittedForm)
    (record : Record) :
    (∀ kv ∈ edit_form_data [pk] form, kv.1 ≠ pk ∧ kv.1 ≠ "csrf_token") ∧
    recordGet (apply_update record (edit_form_data [pk] form)) pk =
      recordGet record pk ∧
    (∀ fields : List ColumnInfo,
      form_field_names fields [] true = fields.map (·.name)) := by
  have hmem : ∀ kv ∈ edit_form_data [pk] form,
      kv.1 ≠ pk ∧ kv.1 ≠ "csrf_token" := by
    intro kv hkv
    rw [edit_form_data] at hkv
    have hp := (List.mem_filter.mp hkv).2
    simp only [List.contains_cons, List.contains_nil, Bool.or_false,
      Bool.not_eq_eq_eq_not, Bool.not_true, Bool.or_eq_false_iff,
      beq_eq_false_iff_ne, ne_eq] at hp
    exact ⟨hp.2, hp.1⟩
  refine ⟨hmem, ?_, ?_⟩
  · exact apply_update_preserves pk _ record (fun kv h => (hmem kv h).1)
  · intro fields
    simp [form_field_names, List.filter_true]

/-- C10 witness: at a concrete edit form, the data handed to update keeps
only the non-key field and the stored primary key is untouched. -/
theorem C10_update_excludes_pk_witness :
    recordGet
      (apply_update [("id", PyVal.int 1), ("name", PyVal.str "y")]
        (edit_form_data ["id"]
          [("id", PyVal.int 5), ("csrf_token", PyVal.str "t"),
           ("name", PyVal.str "x")])) "id" =
      recordGet [("id", PyVal.int 1), ("name", PyVal.str "y")] "id" ∧
    ("name", PyVal.str "x").1 ≠ "id" :=
  ⟨(C10_update_excludes_pk "id"
      [("id", PyVal.int 5), ("csrf_token", PyVal.str "t"),
       ("name", PyVal.str "x")]
      [("id", PyVal.int 1), ("name", PyVal.str "y")]).2.1,
   ((C10_update_excludes_pk "id"
      [("id", PyVal.int 5), ("csrf_token", PyVal.str "t"),
       ("name", PyVal.str "x")]
      [("id", PyVal.int 1), ("name", PyVal.str "y")]).1
      ("name", PyVal.str "x")
      (by
        rw [show edit_form_data ["id"]
            [("id", PyVal.int 5), ("csrf_token", PyVal.str "t"),
             ("name", PyVal.str "x")] = [("name", PyVal.str "x")] from rfl]
        exact List.mem_singleton.mpr rfl)).1⟩

theorem convert_obj_lookup (fields : List ColumnInfo) :
    ∀ (obj : Record) (k : String),
      (convert_obj fields obj).lookup k =
        (obj.lookup k).map (fun v =>
          if (jsonFieldNames fields).contains k && !v.isNone && !v.isStr then
            PyVal.str (pyJsonDumps v)
          else v) := by
  intro obj
  induction obj with
  | nil => intro k; rfl
  | cons p t ih =>
    intro k
    by_cases hk : p.1 = k
    · by_cases hcond :
          ((jsonFieldNames fields).contains p.1 && !p.2.isNone && !p.2.isStr) =
            true
      · simp only [convert_obj, List.map_cons, if_pos hcond]
        simp only [List.lookup, hk, beq_self_eq_true]
        simp only [← hk, Option.map_some']
        rw [if_pos hcond]
      · simp only [convert_obj, List.map_cons, if_neg hcond]
        have : p = (p.1, p.2) := rfl
        rw [this]
        simp only [List.lookup, hk, beq_self_eq_true]
        simp only [← hk, Option.map_some']
        rw [if_neg hcond]
    · have hbeq : (k == p.1) = false := by
        simp [beq_eq_false_iff_ne]
        exact fun h => hk h.symm
      by_cases hcond :
          ((jsonFieldNames fields).contains p.1 && !p.2.isNone && !p.2.isStr) =
            true
      · simp only [convert_obj, List.map_cons, if_pos hcond] at *
        simp only [List.lookup, hbeq]
        exact ih k
      · simp only [convert_obj, List.map_cons, if_neg hcond] at *
        have : p = (p.1, p.2) := rfl
        rw [this]
        simp only [List.lookup, hbeq]
        exact ih k

/-- C4: when a stored record is bound into a form, a JSON-typed column value
that is neither null nor already a string is replaced by its indented JSON
text `json.dumps(value, indent=2, default=str)` (with `default=str`,
non-serializable leaves go through their string representation, so the
`except` fallback never fires for representable values); a null value and an
existing string value pass through unchanged, and non-JSON columns are not
touched at all. -/
theorem C4_json_load_into_form (model_fields : List ColumnInfo) (obj : Record)
    (k : String) :
    (∀ v, obj.lookup k = Option.some v →
      (jsonFieldNames model_fields).contains k = true →
      (convert_obj model_fields obj).lookup k =
        Option.some
          (if v.isNone || v.isStr then v else PyVal.str (pyJsonDumps v))) ∧
    ((jsonFieldNames model_fields).contains k = false →
      (convert_obj model_fields obj).lookup k = obj.lookup k) := by
  constructor
  · intro v hv hmem
    have hm : k ∈ jsonFieldNames model_fields := List.elem_iff.mp hmem
    rw [convert_obj_lookup, hv]
    cases hN : v.isNone <;> cases hS : v.isStr <;>
      simp [hmem, hm, hN, hS]
  · intro hmem
    have hm : k ∉ jsonFieldNames model_fields := fun h => by
      have hc : (jsonFieldNames model_fields).contains k = true :=
        List.elem_iff.mpr h
      rw [hc] at hmem
      cases hmem
    rw [convert_obj_lookup]
    cases obj.lookup k <;> simp [hmem, hm]

/-- C4 witness: a dict stored in a JSON column is serialized to indented
JSON text on form load, at a concrete record. -/
theorem C4_json_load_into_form_witness :
    (convert_obj [⟨"metadata", "JSON", true, false, Option.none⟩]
        [("metadata",
          PyVal.dict (PyFields.cons "key" (PyVal.int 1) PyFields.nil))]).lookup
      "metadata" =
      Option.some (PyVal.str "\x7b\n  \"key\": 1\n\x7d") :=
  ((C4_json_load_into_form [⟨"metadata", "JSON", true, false, Option.none⟩]
      [("metadata", PyVal.dict (PyFields.cons "key" (PyVal.int 1) PyFields.nil))]
      "metadata").1
    (PyVal.dict (PyFields.cons "key" (PyVal.int 1) PyFields.nil))
    rfl rfl).trans (by rfl)

/-- C5 witness: the round trip at a concrete nested value with escapes,
non-ASCII text, negative numbers, null and booleans. -/
theorem C5_parse_serialize_round_trip_witness :
    jsonPure
        (PyVal.dict (PyFields.cons "a"
          (PyVal.list (PyList.cons (PyVal.int (-42))
            (PyList.cons (PyVal.str "x\"y\\z\né𝄞") (PyList.cons PyVal.none
              (PyList.cons (PyVal.bool true) PyList.nil)))))
          (PyFields.cons "b" (PyVal.dict PyFields.nil) PyFields.nil))) =
      true ∧
    pyJsonLoads
        (pyJsonDumps
          (PyVal.dict (PyFields.cons "a"
            (PyVal.list (PyList.cons (PyVal.int (-42))
              (PyList.cons (PyVal.str "x\"y\\z\né𝄞") (PyList.cons PyVal.none
                (PyList.cons (PyVal.bool true) PyList.nil)))))
            (PyFields.cons "b" (PyVal.dict PyFields.nil) PyFields.nil)))) =
      Option.some
        (PyVal.dict (PyFields.cons "a"
          (PyVal.list (PyList.cons (PyVal.int (-42))
            (PyList.cons (PyVal.str "x\"y\\z\né𝄞") (PyList.cons PyVal.none
              (PyList.cons (PyVal.bool true) PyList.nil)))))
          (PyFields.cons "b" (PyVal.dict PyFields.nil) PyFields.nil))) :=
  ⟨rfl,
   C5_parse_serialize_round_trip
     (PyVal.dict (PyFields.cons "a"
       (PyVal.list (PyList.cons (PyVal.int (-42))
         (PyList.cons (PyVal.str "x\"y\\z\né𝄞") (PyList.cons PyVal.none
           (PyList.cons (PyVal.bool true) PyList.nil)))))
       (PyFields.cons "b" (PyVal.dict PyFields.nil) PyFields.nil)))
     rfl⟩

/-- C1 (code evaluation at the failing input): on submission the create and
edit handlers copy `field.data` verbatim — the JSON text of a JSON-typed
column is handed to the data-access create/update operation as the raw
string, not as the parsed structure that `json.loads` would produce (the
`process_form_data` method exercised by the repository's own tests does not
exist in the code). -/
theorem C1_submission_not_parsed :
    create_form_data
        [("metadata", PyVal.str "\x7b\"key\": \"value\"\x7d"),
         ("csrf_token", PyVal.str "tok")] =
      [("metadata", PyVal.str "\x7b\"key\": \"value\"\x7d")] ∧
    edit_form_data ["id"]
        [("metadata", PyVal.str "\x7b\"key\": \"value\"\x7d"),
         ("id", PyVal.int 1), ("csrf_token", PyVal.str "tok")] =
      [("metadata", PyVal.str "\x7b\"key\": \"value\"\x7d")] ∧
    pyJsonLoads "\x7b\"key\": \"value\"\x7d" =
      Option.some
        (PyVal.dict (PyFields.cons "key" (PyVal.str "value") PyFields.nil)) ∧
    PyVal.str "\x7b\"key\": \"value\"\x7d" ≠
      PyVal.dict (PyFields.cons "key" (PyVal.str "value") PyFields.nil) := by
  refine ⟨rfl, rfl, rfl, fun h => PyVal.noConfusion h⟩

/-- C3 (code evaluation at the failing input): `format_column_value` renders
a mapping through Python `str()`, producing the repr "{'key': 'value'}"
rather than the compact JSON serialization the spec (and the repository's own
tests) demand, and applies no 100-character truncation: a mapping whose
rendering is 109 characters long is returned whole. -/
theorem C3_display_format_not_json :
    format_column_value []
        [("data",
          PyVal.dict (PyFields.cons "key" (PyVal.str "value") PyFields.nil))]
        "data" = "\x7b'key': 'value'\x7d" ∧
    "\x7b'key': 'value'\x7d" ≠ "\x7b\"key\":\"value\"\x7d" ∧
    (format_column_value []
        [("data",
          PyVal.dict (PyFields.cons "k"
            (PyVal.str (String.mk (List.replicate 100 'a'))) PyFields.nil))]
        "data").length = 109 := by
  refine ⟨rfl, by decide, by decide⟩
